import Mathlib

/-!
Verification of the starlarkgen rendering engine (a Go library that renders
a parsed Starlark AST back to source text).

The definitions below are a shallow embedding of the Go source:

* `Tok` models `go.starlark.net/syntax.Token` (the subset of tokens the
  renderer touches), `tokStr` models `Token.String()`.
* `Expr`, `Clause`, `Stmt` model the borrowed AST node kinds.
* `outputOpts` models the `outputOpts` struct, `getOutputOpts` the options
  builder, and `WithDepth` etc. the option constructors.
* `expr`, `exprSequence`, `stmt`, `stmtSequence`, `docstring`, `loadStmt`
  logic etc. are translated from `expr.go` and `stmt.go`.  The pure
  functions model rendering into a `strings.Builder`: its `WriteString`
  never fails (guaranteed by the Go standard library), so the write-error
  branches of the Go code are unreachable there and each renderer simply
  returns the concatenation of the strings the Go code writes, in the
  same order, with the identical error wrapping on the reachable
  (validation / nested-render) error paths.
* A separate sink layer (`SinkCfg`, `SinkSt`, `wr`, `render`, `item`,
  `assignStmtW`, `loadStmtW`, `whileStmtV2`) models rendering to an
  arbitrary `io.StringWriter` whose writes may fail, following
  `render.go` and the item-list based statement renderers in `stmt.go`.
-/

namespace Starlarkgen

/-- Model of `go.starlark.net/syntax.Token` (the renderer-relevant subset). -/
inductive Tok where
  | eq | eql | plusEq | minusEq | starEq | percentEq
  | plus | minus | star | starstar | percent | slash
  | lt | gt | ge | le
  | passT | breakT | continueT
  | ifT | elseT | forT | inT | whileT | defT | loadT | returnT | lambdaT | notT
  | comma | colon | lparen | rparen | lbrack | rbrack | lbrace | rbrace | dot
  | illegal | eofT | indentT | outdentT | identT | intT | floatT | stringT | newlineT
  deriving DecidableEq, Repr

/-- Model of `syntax.Token.String()` (the `tokenNames` table of go.starlark.net). -/
def tokStr : Tok → String
  | .eq => "="
  | .eql => "=="
  | .plusEq => "+="
  | .minusEq => "-="
  | .starEq => "*="
  | .percentEq => "%="
  | .plus => "+"
  | .minus => "-"
  | .star => "*"
  | .starstar => "**"
  | .percent => "%"
  | .slash => "/"
  | .lt => "<"
  | .gt => ">"
  | .ge => ">="
  | .le => "<="
  | .passT => "pass"
  | .breakT => "break"
  | .continueT => "continue"
  | .ifT => "if"
  | .elseT => "else"
  | .forT => "for"
  | .inT => "in"
  | .whileT => "while"
  | .defT => "def"
  | .loadT => "load"
  | .returnT => "return"
  | .lambdaT => "lambda"
  | .notT => "not"
  | .comma => ","
  | .colon => ":"
  | .lparen => "("
  | .rparen => ")"
  | .lbrack => "["
  | .rbrack => "]"
  | .lbrace => "\x7b"
  | .rbrace => "\x7d"
  | .dot => "."
  | .illegal => "illegal token"
  | .eofT => "end of file"
  | .indentT => "indent"
  | .outdentT => "outdent"
  | .identT => "identifier"
  | .intT => "int literal"
  | .floatT => "float literal"
  | .stringT => "string literal"
  | .newlineT => "newline"

/-- Model of the dynamically-typed `syntax.Literal.Value` payload (`string`,
`int`, `uint`, `int64`, `uint64`, `*big.Int`); `badV` models a payload of any
other Go type, carrying the `%T` type name. -/
inductive LitValue where
  | str (s : String)
  | intV (n : Int)
  | uintV (n : Nat)
  | int64V (n : Int)
  | uint64V (n : Nat)
  | bigIntV (n : Int)
  | badV (tyName : String)
  deriving DecidableEq, Repr

mutual
/-- Model of the `syntax.Expr` node kinds handled by `expr()` in `expr.go`.
`lit` carries the `Literal` fields used by the renderer: `Value` (as an
`Option LitValue`; `none` models a nil `Value`, rendered from `Raw`), `Raw`,
`Token` and `TokenPos.Col`.  `badE` models any expression type outside the
type switch (e.g. `*syntax.LambdaExpr`), carrying its `%T` name. -/
inductive Expr where
  | binary (op : Tok) (x y : Expr)
  | call (fn : Expr) (args : List Expr)
  | comp (curly : Bool) (body : Expr) (clauses : List Clause)
  | condE (cond tru fls : Expr)
  | dictEntry (key value : Expr)
  | dict (elems : List Expr)
  | dot (x name : Expr)
  | ident (name : String)
  | index (x y : Expr)
  | listE (elems : List Expr)
  | lit (value : Option LitValue) (raw : String) (tok : Tok) (col : Int)
  | paren (x : Expr)
  | slice (x : Expr) (lo hi step : Option Expr)
  | tuple (elems : List Expr)
  | unary (op : Tok) (x : Option Expr)
  | badE (tyName : String)

/-- Model of comprehension clauses: `*syntax.ForClause`, `*syntax.IfClause`,
and (`badC`) any other clause node type, carrying its `%T` name. -/
inductive Clause where
  | forC (vars x : Expr)
  | ifC (cond : Expr)
  | badC (tyName : String)
end

/-- Model of the `syntax.Stmt` node kinds handled by `stmt()` in `stmt.go`.
In `load`, `froms` models the `From` identifiers (always present, by name)
and `tos` the `To` identifiers, where `none` models a nil `*syntax.Ident`.
`badS` models a statement type outside the type switch. -/
inductive Stmt where
  | assign (op : Tok) (lhs rhs : Expr)
  | branch (tok : Tok)
  | defS (name : Expr) (params : List Expr) (body : List Stmt)
  | exprS (x : Expr)
  | forS (vars x : Expr) (body : List Stmt)
  | ifS (cond : Expr) (tru fls : List Stmt)
  | load (moduleE : Expr) (froms : List String) (tos : List (Option String))
  | ret (result : Option Expr)
  | whileS (cond : Expr) (body : List Stmt)
  | badS (tyName : String)

/-- Go type name (`%T`) of an expression node, as used in error messages. -/
def typeName : Expr → String
  | .binary _ _ _ => "*syntax.BinaryExpr"
  | .call _ _ => "*syntax.CallExpr"
  | .comp _ _ _ => "*syntax.Comprehension"
  | .condE _ _ _ => "*syntax.CondExpr"
  | .dictEntry _ _ => "*syntax.DictEntry"
  | .dict _ => "*syntax.DictExpr"
  | .dot _ _ => "*syntax.DotExpr"
  | .ident _ => "*syntax.Ident"
  | .index _ _ => "*syntax.IndexExpr"
  | .listE _ => "*syntax.ListExpr"
  | .lit _ _ _ _ => "*syntax.Literal"
  | .paren _ => "*syntax.ParenExpr"
  | .slice _ _ _ _ => "*syntax.SliceExpr"
  | .tuple _ => "*syntax.TupleExpr"
  | .unary _ _ => "*syntax.UnaryExpr"
  | .badE t => t

/-- Model of the `outputOpts` struct (depth is non-negative after options
validation, so it is a `Nat`; the four layout options are `renderOption`
values `0..8`). -/
structure outputOpts where
  depth : Nat
  indent : String
  spaceEqBinary : Bool
  callOption : Nat
  dictOption : Nat
  listOption : Nat
  tupleOption : Nat
  deriving DecidableEq, Repr

/-- Model of `(*outputOpts).addDepth`. -/
def outputOpts.addDepth (o : outputOpts) (n : Nat) : outputOpts :=
  { o with depth := o.depth + n }

/-- Model of `defaultOpts` (indent four spaces, depth 0, no space around EQ,
all layout options single-line). -/
def defaultOpts : outputOpts :=
  { depth := 0, indent := "    ", spaceEqBinary := false,
    callOption := 0, dictOption := 0, listOption := 0, tupleOption := 0 }

/-- Model of `renderOption.multiLineType()`: `uint8(ro) / 3`
(0 = singleLine, 1 = multiLineMultiple, 2 = multiLine). -/
def multiLineType (ro : Nat) : Nat := ro / 3

/-- Model of `renderOption.commaType()`: `uint8(ro) % 3`
(0 = noLastComma, 1 = alwaysLastComma, 2 = lastCommaTwoAndMore). -/
def commaType (ro : Nat) : Nat := ro % 3

/-- Model of `writeRepeat(out, source, n)`: the string written by `n`
successive writes of `source`. -/
def writeRepeat (source : String) : Nat → String
  | 0 => ""
  | n + 1 => source ++ writeRepeat source n

/-- Hex digit used by `goQuote`. -/
def hexDigit (n : Nat) : Char :=
  if n < 10 then Char.ofNat (48 + n) else Char.ofNat (87 + n)

/-- Escaping of one character, as done by Go `strconv.Quote` for single-byte
characters (the inputs appearing in this development are ASCII). -/
def quoteChar (c : Char) : String :=
  if c = '"' then "\\\""
  else if c = '\\' then "\\\\"
  else if c = '\n' then "\\n"
  else if c = '\t' then "\\t"
  else if c = '\r' then "\\r"
  else if c = Char.ofNat 7 then "\\a"
  else if c = Char.ofNat 8 then "\\b"
  else if c = Char.ofNat 11 then "\\v"
  else if c = Char.ofNat 12 then "\\f"
  else if 32 ≤ c.toNat ∧ c.toNat < 127 then String.singleton c
  else "\\x" ++ String.singleton (hexDigit (c.toNat / 16 % 16))
       ++ String.singleton (hexDigit (c.toNat % 16))

/-- Model of `strconv.Quote` / `strconv.AppendQuote` as used by `literal()`
for string payloads. -/
def goQuote (s : String) : String :=
  "\"" ++ String.join (s.data.map quoteChar) ++ "\""

/-- Model of `literal()` from `expr.go` (the parts independent of the
writer): a nil `Value` falls back to the pre-formatted `Raw` text, numeric
payloads are rendered in decimal (`starlark.MakeInt(..).String()` etc.),
string payloads are quoted, and an unsupported payload type is an error. -/
def literal (value : Option LitValue) (raw : String) : Except String String :=
  match value with
  | none => .ok raw
  | some (.str s) => .ok (goQuote s)
  | some (.intV n) => .ok (toString n)
  | some (.uintV n) => .ok (toString n)
  | some (.int64V n) => .ok (toString n)
  | some (.uint64V n) => .ok (toString n)
  | some (.bigIntV n) => .ok (toString n)
  | some (.badV ty) =>
      .error ("unsupported literal value type " ++ ty
        ++ ", expected string, int, int64, uint, uint64 or *big.Int")

/-- Model of the dict-element validation loop in `dictExpr()`: returns the
`%T` name of the first element that is not a `*syntax.DictEntry`. -/
def dictValidate : List Expr → Option String
  | [] => none
  | .dictEntry _ _ :: rest => dictValidate rest
  | e :: _ => some (typeName e)

mutual
/-- Model of `expr()` from `expr.go` and the per-kind renderers it
dispatches to (`binaryExpr`, `callExpr`, `comprehension`, `condExpr`,
`dictEntry`, `dictExpr`, `dotExpr`, `ident`, `indexExpr`, `listExpr`,
`literal`, `parenExpr`, `sliceExpr`, `tupleExpr`, `unaryExpr`).  Each case
returns the concatenation of the strings the Go code writes, in write
order, with the Go error wrapping on nested failures. -/
def expr (input : Expr) (opts : outputOpts) : Except String String :=
  match input with
  | .binary op x y =>
      match expr x opts with
      | .error e => .error ("rendering binary expression X: " ++ e)
      | .ok sx =>
        match expr y opts with
        | .error e => .error ("rendering binary expression Y: " ++ e)
        | .ok sy =>
          let pad : String := if op ≠ Tok.eq ∨ opts.spaceEqBinary = true then " " else ""
          .ok (sx ++ pad ++ tokStr op ++ pad ++ sy)
  | .call fn args =>
      match expr fn opts with
      | .error e => .error ("rendering call expression Fn: " ++ e)
      | .ok sf =>
        match exprSequence args opts.callOption opts with
        | .error e => .error ("rendering call expression: " ++ e)
        | .ok sq => .ok (sf ++ "(" ++ sq ++ ")")
  | .comp curly body clauses =>
      let tokL : String := if curly then "\x7b" else "["
      let tokR : String := if curly then "\x7d" else "]"
      match expr body opts with
      | .error e => .error ("rendering comprehension Body: " ++ e)
      | .ok sb =>
        match compClauses clauses opts with
        | .error e => .error e
        | .ok sc => .ok (tokL ++ sb ++ sc ++ tokR)
  | .condE cond tru fls =>
      match expr tru opts with
      | .error e => .error ("rendering condition expression True: " ++ e)
      | .ok st =>
        match expr cond opts with
        | .error e => .error ("rendering condition expression Cond: " ++ e)
        | .ok sc =>
          match expr fls opts with
          | .error e => .error ("rendering condition expression False: " ++ e)
          | .ok sf => .ok (st ++ " " ++ "if" ++ " " ++ sc ++ " " ++ "else" ++ " " ++ sf)
  | .dictEntry key value =>
      match expr key opts with
      | .error e => .error ("rendering dict entry Key: " ++ e)
      | .ok sk =>
        match expr value opts with
        | .error e => .error ("rendering dict entry Value: " ++ e)
        | .ok sv => .ok (sk ++ ":" ++ " " ++ sv)
  | .dict elems =>
      match dictValidate elems with
      | some bad => .error ("expected *syntax.DictEntry, got " ++ bad ++ " in dictExpr")
      | none =>
        match exprSequence elems opts.dictOption opts with
        | .error e => .error ("rendering dict expression: " ++ e)
        | .ok sq => .ok ("\x7b" ++ sq ++ "\x7d")
  | .dot x name =>
      match expr x opts with
      | .error e => .error ("rendering dot expression X: " ++ e)
      | .ok sx =>
        match expr name opts with
        | .error e => .error ("rendering dot expression Name: " ++ e)
        | .ok sn => .ok (sx ++ "." ++ sn)
  | .ident name => .ok name
  | .index x y =>
      match expr x opts with
      | .error e => .error ("rendering index expression X: " ++ e)
      | .ok sx =>
        match expr y opts with
        | .error e => .error ("rendering index expression Y: " ++ e)
        | .ok sy => .ok (sx ++ "[" ++ sy ++ "]")
  | .listE elems =>
      match exprSequence elems opts.listOption opts with
      | .error e => .error ("rendering list expression: " ++ e)
      | .ok sq => .ok ("[" ++ sq ++ "]")
  | .lit value raw _ _ => literal value raw
  | .paren x =>
      match expr x opts with
      | .error e => .error ("rendering paren expression X: " ++ e)
      | .ok sx => .ok ("(" ++ sx ++ ")")
  | .slice x lo hi step =>
      match expr x opts with
      | .error e => .error ("rendering slice expression X: " ++ e)
      | .ok sx =>
        match exprOptPart lo "rendering slice expression Lo: " opts with
        | .error e => .error e
        | .ok sl =>
          match exprOptPart hi "rendering slice expression Hi: " opts with
          | .error e => .error e
          | .ok sh =>
            match sliceStepPart step opts with
            | .error e => .error e
            | .ok ss => .ok (sx ++ "[" ++ sl ++ ":" ++ sh ++ ss ++ "]")
  | .tuple elems =>
      match exprSequence elems opts.tupleOption opts with
      | .error e => .error ("rendering tuple expression: " ++ e)
      | .ok sq => .ok sq
  | .unary op x? =>
      match x? with
      | none =>
        if op = Tok.star then .ok (tokStr op)
        else .error ("rendering unary expression, nil X value for "
          ++ goQuote (tokStr op) ++ " token")
      | some x =>
        match expr x opts with
        | .error e => .error ("rendering unary expression X: " ++ e)
        | .ok sx => .ok (tokStr op ++ sx)
  | .badE ty => .error ("type " ++ ty ++ " is not supported")
termination_by (sizeOf input, 0)

/-- Model of `exprSequence()` from `expr.go`: layout decision from the
`renderOption` axes, then the optional leading break, the element loop, the
optional trailing comma, and the optional closing break, concatenated in
write order. -/
def exprSequence (source : List Expr) (ro : Nat) (opts : outputOpts) : Except String String :=
  let n := source.length
  let prefixIndent : Bool :=
    match multiLineType ro with
    | 2 => decide (0 < n)
    | 1 => decide (1 < n)
    | _ => false
  let lastComma : Bool :=
    match commaType ro with
    | 1 => decide (0 < n)
    | 2 => decide (1 < n)
    | _ => false
  let eOpts := if prefixIndent then opts.addDepth 1 else opts
  let sepNext : String :=
    if prefixIndent then "," ++ "\n" ++ writeRepeat opts.indent (opts.depth + 1)
    else "," ++ " "
  match exprSeqElems source 0 "" sepNext eOpts with
  | .error e => .error e
  | .ok body =>
    .ok ((if prefixIndent then "\n" ++ writeRepeat opts.indent (opts.depth + 1) else "")
      ++ body ++ (if lastComma then "," else "")
      ++ (if prefixIndent then "\n" ++ writeRepeat opts.indent opts.depth else ""))
termination_by (sizeOf source, 1)

/-- Element loop of `exprSequence()`: separator (empty before the first
element) then element, with the Go `element %d` error wrapping. -/
def exprSeqElems (source : List Expr) (i : Nat) (sepNow sepNext : String)
    (opts : outputOpts) : Except String String :=
  match source with
  | [] => .ok ""
  | a :: rest =>
    match expr a opts with
    | .error e => .error ("element " ++ toString i ++ ": " ++ e)
    | .ok s =>
      match exprSeqElems rest (i + 1) sepNext sepNext opts with
      | .error e => .error e
      | .ok r => .ok (sepNow ++ s ++ r)
termination_by (sizeOf source, 0)

/-- Clause loop of `comprehension()` from `expr.go`. -/
def compClauses (cls : List Clause) (opts : outputOpts) : Except String String :=
  match cls with
  | [] => .ok ""
  | .forC vars x :: rest =>
    match expr vars opts with
    | .error e => .error ("rendering comprehension for clause Vars: " ++ e)
    | .ok sv =>
      match expr x opts with
      | .error e => .error ("rendering comprehension for clause X: " ++ e)
      | .ok sx =>
        match compClauses rest opts with
        | .error e => .error e
        | .ok r => .ok (" " ++ "for" ++ " " ++ sv ++ " " ++ "in" ++ " " ++ sx ++ r)
  | .ifC c :: rest =>
    match expr c opts with
    | .error e => .error ("rendering comprehension if clause Cond: " ++ e)
    | .ok sc =>
      match compClauses rest opts with
      | .error e => .error e
      | .ok r => .ok (" " ++ "if" ++ " " ++ sc ++ r)
  | .badC ty :: _ =>
    .error ("unexpected clause type " ++ ty ++ " rendering comprehension")
termination_by (sizeOf cls, 0)

/-- Optional sub-expression of `sliceExpr()` (`Lo` / `Hi`): renders nothing
when absent. -/
def exprOptPart (x? : Option Expr) (pre : String) (opts : outputOpts) : Except String String :=
  match x? with
  | none => .ok ""
  | some x =>
    match expr x opts with
    | .error e => .error (pre ++ e)
    | .ok s => .ok s
termination_by (sizeOf x?, 0)

/-- Optional `Step` part of `sliceExpr()`: the second colon is written only
when `Step` is present. -/
def sliceStepPart (step? : Option Expr) (opts : outputOpts) : Except String String :=
  match step? with
  | none => .ok ""
  | some stp =>
    match expr stp opts with
    | .error e => .error ("rendering slice expression Step: " ++ e)
    | .ok s => .ok (":" ++ s)
termination_by (sizeOf step?, 0)
end

/-- Model of the triple-quote escaping loop of `docstring()` in `stmt.go`:
every `"""` in the text becomes `\"\"\"` (the scan checks the three bytes at
the cursor and advances three characters past a match, so overlapping quotes
are consumed left to right). -/
def escTriple : List Char → List Char
  | [] => []
  | c :: rest =>
    if c = '"' ∧ rest.take 2 = ['"', '"'] then
      '\\' :: '"' :: '\\' :: '"' :: '\\' :: '"' :: escTriple (rest.drop 2)
    else c :: escTriple rest
termination_by cs => cs.length
decreasing_by
  · simp only [List.length_cons, List.length_drop]
    omega
  · simp

/-- Model of `hasSpacePrefix(buf, l)` from `stmt.go`: the buffer is at least
`l` long and its first `l` characters are spaces. -/
def hasSpacePrefix (buf : List Char) (l : Nat) : Bool :=
  decide (l ≤ buf.length) && (buf.take l).all (fun c => c = ' ')

/-- Model of the per-line strip step of `docstring()`:
`if stripPrefix > 0 && hasSpacePrefix(buf, stripPrefix) { buf = buf[stripPrefix:] }`. -/
def stripDoc (p : Nat) (buf : List Char) : List Char :=
  if 0 < p ∧ hasSpacePrefix buf p = true then buf.drop p else buf

/-- Model of the line scan of `docstring()` (the `bytes.IndexByte` loop):
splits the buffer at newlines; when the buffer ends with a newline the loop
terminates without producing a line for the empty tail, exactly as
`pos = len(buffer)` ends the Go loop. -/
def scanLinesAux (cur : List Char) : List Char → List (List Char)
  | [] => [cur]
  | c :: rest =>
    if c = '\n' then
      cur :: (if rest = [] then [] else scanLinesAux [] rest)
    else scanLinesAux (cur ++ [c]) rest

/-- Model of the `lineNum >= 1` iterations of the `docstring()` loop: each
subsequent line is preceded by a newline and, when non-empty after stripping
or when it is the final scanned line (`pos >= len` in the Go code), by the
current indentation and the (stripped) line text. -/
def docTailLines (p : Nat) (opts : outputOpts) : List (List Char) → String
  | [] => ""
  | l :: rest =>
    let line := stripDoc p l
    "\n" ++ (if 0 < line.length ∨ rest = [] then
               writeRepeat opts.indent opts.depth ++ line.asString
             else "")
      ++ docTailLines p opts rest

/-- Model of `docstring()` from `stmt.go`: indentation, opening `"""`, the
first scanned line verbatim (never stripped), the remaining lines via
`docTailLines`, an extra newline-plus-indent when the text ends with a
newline, and the closing `"""` plus newline.  The strip width is
`TokenPos.Col - 1` when the literal carries a parser position
(`Token == syntax.STRING && TokenPos.Col > 1`). -/
def docstring (tok : Tok) (col : Int) (strValue : String) (opts : outputOpts) : String :=
  let stripLen : Nat := if tok = Tok.stringT ∧ 1 < col then (col - 1).toNat else 0
  let esc := escTriple strValue.data
  let lines := scanLinesAux [] esc
  writeRepeat opts.indent opts.depth ++ "\"\"\""
    ++ (match lines with
        | [] => ""
        | l0 :: rest => l0.asString ++ docTailLines stripLen opts rest)
    ++ (if esc.getLast? = some '\n' then "\n" ++ writeRepeat opts.indent opts.depth else "")
    ++ "\"\"\"" ++ "\n"

/-- Joining a list of segments with a separator: the inverse of line (or
segment) splitting, used to quantify the docstring theorems over an
arbitrary number of lines and an arbitrary number of `"""` occurrences. -/
def joinSep (sep : List Char) : List (List Char) → List Char
  | [] => []
  | [l] => l
  | l :: l2 :: ls => l ++ sep ++ joinSep sep (l2 :: ls)

/-- Modelled from the spec's words (the comparison point for the docstring
re-indentation claim): each line after the first is preceded by a newline;
the column-minus-one space prefix (`p`, positive when the column exceeds
one) is stripped from the line exactly when the line starts with it, and a
line that is non-empty after stripping, or is the final line, is preceded by
the current indentation. -/
def docTailSpec (p : Nat) (opts : outputOpts) : List (List Char) → String
  | [] => ""
  | l :: rest =>
    let l2 := if 0 < p ∧ List.replicate p ' ' <+: l then l.drop p else l
    "\n" ++ (if 0 < l2.length ∨ rest = [] then
               writeRepeat opts.indent opts.depth ++ l2.asString
             else "")
      ++ docTailSpec p opts rest

/-- Model of one imported-symbol entry of `loadStmt()` from `stmt.go` (the
part after the `", "` separator): the alias and `=` are emitted only when the
`To` identifier is non-nil and its name differs from the `From` name; the
`From` name is always emitted between quotes.  Spacing around `=` follows
`spaceEqBinary`. -/
def loadEntry (f : String) (t : Option String) (spaceEq : Bool) : String :=
  match t with
  | some a =>
    if a ≠ f then
      a ++ (if spaceEq then " " ++ "=" ++ " " else "=") ++ "\"" ++ f ++ "\""
    else "\"" ++ f ++ "\""
  | none => "\"" ++ f ++ "\""

/-- Model of the `for i, elem := range input.From` loop of `loadStmt()`:
each entry is preceded by a comma and a space.  (It is only invoked with
lists of equal length, after the length validation.) -/
def loadEntries (froms : List String) (tos : List (Option String)) (spaceEq : Bool) : String :=
  match froms, tos with
  | f :: fr, t :: tr => "," ++ " " ++ loadEntry f t spaceEq ++ loadEntries fr tr spaceEq
  | _, _ => ""

/-- Model of the pair of type assertions opening `exprStmt()`
(`input.X.(*syntax.Literal)` and `lt.Value.(string)`): returns the string
payload together with the literal's token and column when the sole
expression is a string literal. -/
def docstringLit : Expr → Option (String × Tok × Int)
  | .lit (some (.str s)) _ tok col => some (s, tok, col)
  | _ => none

/-- Model of the optional `Result` part of `returnStmt()`: nothing when the
result is nil, otherwise a space followed by the rendered result. -/
def retResultPart (r? : Option Expr) (opts : outputOpts) : Except String String :=
  match r? with
  | none => .ok ""
  | some r =>
    match expr r opts with
    | .error e => .error e
    | .ok s => .ok (" " ++ s)

mutual
/-- Model of `stmt()` from `stmt.go` and the per-kind statement renderers it
dispatches to (`assignStmt`, `branchStmt`, `defStmt`, `exprStmt`, `forStmt`,
`ifStmt`, `loadStmt`, `returnStmt`, `whileStmt`).  Each case validates as the
Go code does and then returns the concatenation of the strings the Go code
writes, in write order. -/
def stmt (input : Stmt) (opts : outputOpts) : Except String String :=
  match input with
  | .assign op lhs rhs =>
    if op = Tok.eq ∨ op = Tok.plusEq ∨ op = Tok.minusEq ∨ op = Tok.starEq ∨ op = Tok.percentEq then
      match expr lhs opts with
      | .error e => .error ("rendering assignment statement LHS: " ++ e)
      | .ok sl =>
        match expr rhs opts with
        | .error e => .error ("rendering assignment statement RHS: " ++ e)
        | .ok sr =>
          .ok (writeRepeat opts.indent opts.depth ++ sl ++ " " ++ tokStr op ++ " " ++ sr ++ "\n")
    else
      .error ("rendering assign statement: unsupported Op token " ++ tokStr op
        ++ ", expected one of: =, +=, -=, *=, %=")
  | .branch tok =>
    if tok = Tok.breakT ∨ tok = Tok.continueT ∨ tok = Tok.passT then
      .ok (writeRepeat opts.indent opts.depth ++ tokStr tok ++ "\n")
    else
      .error ("rendering branch statement: unsupported token " ++ tokStr tok
        ++ ", expected break, continue or pass")
  | .defS name params body =>
    match expr name opts with
    | .error e => .error ("rendering def statement Name: " ++ e)
    | .ok sn =>
      match exprSequence params 0 opts with
      | .error e => .error ("rendering def statement Params: " ++ e)
      | .ok sp =>
        match stmtSequence body opts with
        | .error e => .error ("rendering def statement Body: " ++ e)
        | .ok sb =>
          .ok (writeRepeat opts.indent opts.depth ++ "def" ++ " " ++ sn
            ++ "(" ++ sp ++ ")" ++ ":" ++ "\n" ++ sb)
  | .exprS x =>
    match docstringLit x with
    | some (strValue, tok, col) => .ok (docstring tok col strValue opts)
    | none =>
      match expr x opts with
      | .error e => .error ("rendering expression statement X: " ++ e)
      | .ok sx => .ok (writeRepeat opts.indent opts.depth ++ sx ++ "\n")
  | .forS vars x body =>
    match expr vars opts with
    | .error e => .error ("rendering for statement Vars: " ++ e)
    | .ok sv =>
      match expr x opts with
      | .error e => .error ("rendering for statement X: " ++ e)
      | .ok sx =>
        match stmtSequence body opts with
        | .error e => .error ("rendering for statement Body: " ++ e)
        | .ok sb =>
          .ok (writeRepeat opts.indent opts.depth ++ "for" ++ " " ++ sv ++ " " ++ "in"
            ++ " " ++ sx ++ ":" ++ "\n" ++ sb)
  | .ifS cond tru fls =>
    match expr cond opts with
    | .error e => .error ("rendering if statement Cond: " ++ e)
    | .ok sc =>
      match stmtSequence tru opts with
      | .error e => .error ("rendering if statement True: " ++ e)
      | .ok st =>
        if 0 < fls.length then
          match stmtSequence fls opts with
          | .error e => .error ("rendering if statement False: " ++ e)
          | .ok sf =>
            .ok (writeRepeat opts.indent opts.depth ++ "if" ++ " " ++ sc ++ ":" ++ "\n" ++ st
              ++ writeRepeat opts.indent opts.depth ++ "else" ++ ":" ++ "\n" ++ sf)
        else
          .ok (writeRepeat opts.indent opts.depth ++ "if" ++ " " ++ sc ++ ":" ++ "\n" ++ st)
  | .load moduleE froms tos =>
    if froms.length ≠ tos.length then
      .error ("rendering load statement, lengths mismatch, From: " ++ toString froms.length
        ++ ", To: " ++ toString tos.length)
    else
      match expr moduleE opts with
      | .error e => .error ("rendering load statement Module: " ++ e)
      | .ok sm =>
        .ok (writeRepeat opts.indent opts.depth ++ "load" ++ "(" ++ sm
          ++ loadEntries froms tos opts.spaceEqBinary ++ ")" ++ "\n")
  | .ret result =>
    match retResultPart result opts with
    | .error e => .error ("rendering return statement Result: " ++ e)
    | .ok sr => .ok (writeRepeat opts.indent opts.depth ++ "return" ++ sr ++ "\n")
  | .whileS cond body =>
    match expr cond opts with
    | .error e => .error ("rendering while statement Cond: " ++ e)
    | .ok sc =>
      match stmtSequence body opts with
      | .error e => .error ("rendering while statement Body: " ++ e)
      | .ok sb =>
        .ok (writeRepeat opts.indent opts.depth ++ "while" ++ " " ++ sc ++ ":" ++ "\n" ++ sb)
  | .badS ty => .error ("unsupported type " ++ ty)
termination_by (sizeOf input, 0)

/-- Model of `stmtSequence()` from `stmt.go`: every statement of a body
block is rendered at depth incremented by one. -/
def stmtSequence (input : List Stmt) (opts : outputOpts) : Except String String :=
  stmtSeqLoop input 0 (opts.addDepth 1)
termination_by (sizeOf input, 1)

/-- Statement loop of `stmtSequence()`, with the Go `statement index %d`
error wrapping. -/
def stmtSeqLoop (input : List Stmt) (i : Nat) (stOpts : outputOpts) : Except String String :=
  match input with
  | [] => .ok ""
  | st :: rest =>
    match stmt st stOpts with
    | .error e => .error ("statement index " ++ toString i ++ ": " ++ e)
    | .ok s =>
      match stmtSeqLoop rest (i + 1) stOpts with
      | .error e => .error e
      | .ok r => .ok (s ++ r)
termination_by (sizeOf input, 0)
end

/-- Model of the public `Option` type: a function transforming the options,
possibly failing (configuration error). -/
def OptionFn := outputOpts → Except String outputOpts

/-- Model of `WithSpaceEqBinary`. -/
def WithSpaceEqBinary (value : Bool) : OptionFn :=
  fun o => .ok { o with spaceEqBinary := value }

/-- Model of `WithDepth` (the `int` argument may be negative, which is a
configuration error). -/
def WithDepth (depth : Int) : OptionFn :=
  fun o =>
    if depth < 0 then
      .error ("invalid depth value " ++ toString depth ++ ", value must be >= 0")
    else .ok { o with depth := depth.toNat }

/-- Model of `WithIndent`. -/
def WithIndent (indent : String) : OptionFn :=
  fun o => .ok { o with indent := indent }

/-- Model of `WithCallOption` (valid values are `0..8`, `callOptionMax = 9`). -/
def WithCallOption (value : Nat) : OptionFn :=
  fun o =>
    if 9 ≤ value then .error ("invalid option value " ++ toString value)
    else .ok { o with callOption := value }

/-- Model of `WithDictOption`. -/
def WithDictOption (value : Nat) : OptionFn :=
  fun o =>
    if 9 ≤ value then .error ("invalid option value " ++ toString value)
    else .ok { o with dictOption := value }

/-- Model of `WithListOption`. -/
def WithListOption (value : Nat) : OptionFn :=
  fun o =>
    if 9 ≤ value then .error ("invalid option value " ++ toString value)
    else .ok { o with listOption := value }

/-- Model of `WithTupleOption`. -/
def WithTupleOption (value : Nat) : OptionFn :=
  fun o =>
    if 9 ≤ value then .error ("invalid option value " ++ toString value)
    else .ok { o with tupleOption := value }

/-- Model of `getOutputOpts`: fold the option functions over the defaults,
stopping at the first configuration error. -/
def getOutputOpts (options : List OptionFn) : Except String outputOpts :=
  options.foldl
    (fun acc o =>
      match acc with
      | .error e => .error e
      | .ok c => o c)
    (.ok defaultOpts)

/-- Model of `WriteStmt`: build options, then render the statement.  The
result string is the full content written to the sink on success (a
`strings.Builder` accumulates exactly these writes). -/
def WriteStmt (input : Stmt) (options : List OptionFn) : Except String String :=
  match getOutputOpts options with
  | .error e => .error e
  | .ok opts => stmt input opts

/-- Model of `WriteExpr`. -/
def WriteExpr (input : Expr) (options : List OptionFn) : Except String String :=
  match getOutputOpts options with
  | .error e => .error e
  | .ok opts => expr input opts

/-- Model of `StarlarkStmt`: the Go function returns the pair
`(string, error)`; on any error it returns the constant `""` and the error,
otherwise the builder content and no error. -/
def StarlarkStmt (input : Stmt) (options : List OptionFn) : String × Option String :=
  match WriteStmt input options with
  | .error e => ("", some e)
  | .ok s => (s, none)

/-- Model of `StarlarkExpr`. -/
def StarlarkExpr (input : Expr) (options : List OptionFn) : String × Option String :=
  match WriteExpr input options with
  | .error e => ("", some e)
  | .ok s => (s, none)

/-!
Sink layer: rendering to an arbitrary `io.StringWriter` whose
`WriteString` calls may fail.  A `SinkCfg` decides, from the index of the
write and the written string, whether that write fails and with which
error (this covers the failure-injecting writers of the repository's
tests); a `SinkSt` is the accumulated output and the write counter.
Nested expression/statement renders are modelled through the pure
renderers above, their output reaching the sink as a single write.
-/

/-- Failure behaviour of a sink: given the write index and the written
string, optionally the error the write returns. -/
structure SinkCfg where
  fails : Nat → String → Option String

/-- State of a sink: accumulated output and number of successful writes. -/
structure SinkSt where
  out : String
  wn : Nat
  deriving DecidableEq, Repr

/-- A sink that never fails (e.g. a `strings.Builder`). -/
def okSink : SinkCfg := ⟨fun _ _ => none⟩

/-- Model of one `WriteString` call against the sink. -/
def wr (cfg : SinkCfg) (st : SinkSt) (s : String) : Except String SinkSt :=
  match cfg.fails st.wn s with
  | some msg => .error msg
  | none => .ok ⟨st.out ++ s, st.wn + 1⟩

/-- Model of `writeRepeat(out, source, n)` against the sink: `n` individual
writes of `source`. -/
def writeRepeatW (cfg : SinkCfg) (st : SinkSt) (source : String) : Nat → Except String SinkSt
  | 0 => .ok st
  | n + 1 =>
    match wr cfg st source with
    | .error e => .error e
    | .ok st2 => writeRepeatW cfg st2 source n

/-- Model of the `item` struct of `render.go` (tag plus payload): literal
string, token, nested expression, nested statement block, and indent
marker. -/
inductive item where
  | exprI (e : Expr) (desc : String)
  | stmtsI (stmts : List Stmt) (desc : String) (addIndent : Bool)
  | indentI
  | tokenI (tok : Tok) (desc : String)
  | stringI (value : String) (desc : String)

/-- The `stmtsType` arm of `render()`: each nested statement is rendered
(modelled via the pure `stmt`, written as one write) with the
`"%s, rendering %s statement index %d: %w"` error wrapping. -/
def renderStmts (cfg : SinkCfg) (st : SinkSt) (errPrefix desc : String)
    (stmts : List Stmt) (i : Nat) (stOpts : outputOpts) : Except String SinkSt :=
  match stmts with
  | [] => .ok st
  | s :: rest =>
    match stmt s stOpts with
    | .error e =>
      .error (errPrefix ++ ", rendering " ++ desc ++ " statement index "
        ++ toString i ++ ": " ++ e)
    | .ok txt =>
      match wr cfg st txt with
      | .error e =>
        .error (errPrefix ++ ", rendering " ++ desc ++ " statement index "
          ++ toString i ++ ": " ++ e)
      | .ok st2 => renderStmts cfg st2 errPrefix desc rest (i + 1) stOpts

/-- Model of `render()` from `render.go`: interpret the item list in order
against the sink, stopping at the first failure with the breadcrumb error
`errPrefix + " " + item description + ": " + cause`.  Token items of the
input-only lexical classes (`ILLEGAL`, `EOF`, `INDENT`, `OUTDENT`, `IDENT`,
`INT`, `FLOAT`, `STRING`) are rejected; `NEWLINE` writes `"\n"`; an indent
item writes `strings.Repeat(indent, depth)` as a single write. -/
def render (cfg : SinkCfg) (st : SinkSt) (errPrefix : String) (opts : outputOpts) :
    List item → Except String SinkSt
  | [] => .ok st
  | .exprI e desc :: rest =>
    match expr e opts with
    | .error err => .error (errPrefix ++ " " ++ desc ++ ": " ++ err)
    | .ok s =>
      match wr cfg st s with
      | .error err => .error (errPrefix ++ " " ++ desc ++ ": " ++ err)
      | .ok st2 => render cfg st2 errPrefix opts rest
  | .stmtsI stmts desc addIndent :: rest =>
    match renderStmts cfg st errPrefix desc stmts 0
        (if addIndent then opts.addDepth 1 else opts) with
    | .error e => .error e
    | .ok st2 => render cfg st2 errPrefix opts rest
  | .indentI :: rest =>
    match wr cfg st (writeRepeat opts.indent opts.depth) with
    | .error err => .error (errPrefix ++ " indent: " ++ err)
    | .ok st2 => render cfg st2 errPrefix opts rest
  | .tokenI t desc :: rest =>
    if t = Tok.illegal ∨ t = Tok.eofT ∨ t = Tok.indentT ∨ t = Tok.outdentT
        ∨ t = Tok.identT ∨ t = Tok.intT ∨ t = Tok.floatT ∨ t = Tok.stringT then
      .error (errPrefix ++ " " ++ desc ++ " token: " ++ tokStr t ++ " not supported")
    else
      match wr cfg st (if t = Tok.newlineT then "\n" else tokStr t) with
      | .error err => .error (errPrefix ++ " " ++ desc ++ " token: " ++ err)
      | .ok st2 => render cfg st2 errPrefix opts rest
  | .stringI v desc :: rest =>
    match wr cfg st v with
    | .error err => .error (errPrefix ++ " " ++ desc ++ ": " ++ err)
    | .ok st2 => render cfg st2 errPrefix opts rest

/-- Model of the item-list `whileStmt()` of `stmt.go` (the variant built on
`render()`): the items are indent, `WHILE`, space, `Cond`, `COLON`,
`NEWLINE`, `Body` (with added indent), and the error prefix passed to
`render()` is the literal `"rendering if statement"` found in the source. -/
def whileStmtV2 (cfg : SinkCfg) (st : SinkSt) (cond : Expr) (body : List Stmt)
    (opts : outputOpts) : Except String SinkSt :=
  render cfg st "rendering if statement" opts
    [ item.indentI,
      item.tokenI Tok.whileT "WHILE",
      item.stringI " " "space",
      item.exprI cond "Cond",
      item.tokenI Tok.colon "COLON",
      item.tokenI Tok.newlineT "NEWLINE",
      item.stmtsI body "Body" true ]

/-- Nested expression render against the sink, modelled via the pure
renderer: the rendered text reaches the sink as one write. -/
def exprW (cfg : SinkCfg) (st : SinkSt) (e : Expr) (opts : outputOpts) : Except String SinkSt :=
  match expr e opts with
  | .error err => .error err
  | .ok s => wr cfg st s

/-- Model of the direct-emission `assignStmt()` of `stmt.go` against the
sink: the operator validation happens before any write; then indent, LHS,
space, operator, space, RHS, newline, each write failure wrapped with its
field name. -/
def assignStmtW (cfg : SinkCfg) (st : SinkSt) (op : Tok) (lhs rhs : Expr)
    (opts : outputOpts) : Except String SinkSt :=
  if op = Tok.eq ∨ op = Tok.plusEq ∨ op = Tok.minusEq ∨ op = Tok.starEq ∨ op = Tok.percentEq then
    match writeRepeatW cfg st opts.indent opts.depth with
    | .error e => .error ("rendering assignment statement indent: " ++ e)
    | .ok st1 =>
      match exprW cfg st1 lhs opts with
      | .error e => .error ("rendering assignment statement LHS: " ++ e)
      | .ok st2 =>
        match wr cfg st2 " " with
        | .error e => .error ("rendering assignment statement space: " ++ e)
        | .ok st3 =>
          match wr cfg st3 (tokStr op) with
          | .error e => .error ("rendering assignment statement Op token: " ++ e)
          | .ok st4 =>
            match wr cfg st4 " " with
            | .error e => .error ("rendering assignment statement space: " ++ e)
            | .ok st5 =>
              match exprW cfg st5 rhs opts with
              | .error e => .error ("rendering assignment statement RHS: " ++ e)
              | .ok st6 =>
                match wr cfg st6 "\n" with
                | .error e => .error ("rendering assignment statement NEWLINE token: " ++ e)
                | .ok st7 => .ok st7
  else
    .error ("rendering assign statement: unsupported Op token " ++ tokStr op
      ++ ", expected one of: =, +=, -=, *=, %=")

/-- Imported-symbol loop of the direct-emission `loadStmt()` against the
sink, with the per-write error wrapping of the Go code (the `To[i]` /
`From[i]` identifiers reach the sink as single writes, wrapped with the
`rendering ident Name` context of `ident()`). -/
def loadElemsW (cfg : SinkCfg) (st : SinkSt) (froms : List String)
    (tos : List (Option String)) (i : Nat) (opts : outputOpts) : Except String SinkSt :=
  match froms, tos with
  | f :: fr, t :: tr =>
    match wr cfg st "," with
    | .error e => .error ("rendering load statement COMMA token: " ++ e)
    | .ok st1 =>
      match wr cfg st1 " " with
      | .error e => .error ("rendering load statement space: " ++ e)
      | .ok st2 =>
        let aliased : Except String SinkSt :=
          match t with
          | some a =>
            if a ≠ f then
              match wr cfg st2 a with
              | .error e =>
                .error ("rendering load statement To[" ++ toString i
                  ++ "]: rendering ident Name: " ++ e)
              | .ok st3 =>
                if opts.spaceEqBinary then
                  match wr cfg st3 " " with
                  | .error e => .error ("rendering load statement space: " ++ e)
                  | .ok st4 =>
                    match wr cfg st4 "=" with
                    | .error e => .error ("rendering load statement EQ token: " ++ e)
                    | .ok st5 =>
                      match wr cfg st5 " " with
                      | .error e => .error ("rendering load statement space: " ++ e)
                      | .ok st6 => .ok st6
                else
                  match wr cfg st3 "=" with
                  | .error e => .error ("rendering load statement EQ token: " ++ e)
                  | .ok st4 => .ok st4
            else .ok st2
          | none => .ok st2
        match aliased with
        | .error e => .error e
        | .ok stA =>
          match wr cfg stA "\"" with
          | .error e => .error ("rendering load statement QUOTE token: " ++ e)
          | .ok stB =>
            match wr cfg stB f with
            | .error e =>
              .error ("rendering load statement From[" ++ toString i
                ++ "]: rendering ident Name: " ++ e)
            | .ok stC =>
              match wr cfg stC "\"" with
              | .error e => .error ("rendering load statement QUOTE token: " ++ e)
              | .ok stD => loadElemsW cfg stD fr tr (i + 1) opts
  | _, _ => .ok st

/-- Model of the direct-emission `loadStmt()` of `stmt.go` against the
sink: the `From`/`To` length validation happens before any write. -/
def loadStmtW (cfg : SinkCfg) (st : SinkSt) (moduleE : Expr) (froms : List String)
    (tos : List (Option String)) (opts : outputOpts) : Except String SinkSt :=
  if froms.length ≠ tos.length then
    .error ("rendering load statement, lengths mismatch, From: " ++ toString froms.length
      ++ ", To: " ++ toString tos.length)
  else
    match writeRepeatW cfg st opts.indent opts.depth with
    | .error e => .error ("rendering load statement indent: " ++ e)
    | .ok st1 =>
      match wr cfg st1 "load" with
      | .error e => .error ("rendering load statement LOAD token: " ++ e)
      | .ok st2 =>
        match wr cfg st2 "(" with
        | .error e => .error ("rendering load statement LPAREN token: " ++ e)
        | .ok st3 =>
          match exprW cfg st3 moduleE opts with
          | .error e => .error ("rendering load statement Module: " ++ e)
          | .ok st4 =>
            match loadElemsW cfg st4 froms tos 0 opts with
            | .error e => .error e
            | .ok st5 =>
              match wr cfg st5 ")" with
              | .error e => .error ("rendering load statement RPAREN token: " ++ e)
              | .ok st6 =>
                match wr cfg st6 "\n" with
                | .error e => .error ("rendering load statement NEWLINE token: " ++ e)
                | .ok st7 => .ok st7

/-- Sink that rejects every write of the string `"while"` (models the
failure-injecting `expectingWriter` of the repository's tests, set to fail
on the first occurrence of the `WHILE` token). -/
def failOnWhile : SinkCfg :=
  ⟨fun _ s => if s = "while" then some "EXPECTED FAILURE" else none⟩

/-!
Theorems.  Each claim of the specification is settled below; shared helper
lemmas come first.
-/

/-- Helper: a zero-element sequence renders as the empty string, for every
layout policy value and every options record (neither the line-break nor the
trailing-comma branch can trigger on an empty element list). -/
theorem exprSequence_nil (ro : Nat) (opts : outputOpts) :
    exprSequence [] ro opts = .ok "" := by
  unfold exprSequence
  rcases hm : multiLineType ro with _ | _ | _ | k <;>
    rcases hc : commaType ro with _ | _ | _ | j <;>
      simp [hm, hc, exprSeqElems]

/-- C1: for every statement (resp. expression) and every option list, when
the render-to-string entry point returns an error, the returned string is
exactly empty: `StarlarkStmt` and `StarlarkExpr` discard the builder and
return the constant `""` together with the error. -/
theorem C1_string_entry_points_empty_on_error :
    (∀ (input : Stmt) (options : List OptionFn),
      (StarlarkStmt input options).2 ≠ none → (StarlarkStmt input options).1 = "")
    ∧ (∀ (input : Expr) (options : List OptionFn),
      (StarlarkExpr input options).2 ≠ none → (StarlarkExpr input options).1 = "") := by
  constructor
  · intro input options h
    unfold StarlarkStmt at h ⊢
    rcases hw : WriteStmt input options with e | s
    · simp [hw]
    · simp [hw] at h
  · intro input options h
    unfold StarlarkExpr at h ⊢
    rcases hw : WriteExpr input options with e | s
    · simp [hw]
    · simp [hw] at h

/-- Witness for C1: a branch statement carrying the `ILLEGAL` token makes
`StarlarkStmt` fail, and the returned string is empty. -/
theorem C1_witness :
    (StarlarkStmt (.branch .illegal) []).2 ≠ none
    ∧ (StarlarkStmt (.branch .illegal) []).1 = "" := by
  have h : (StarlarkStmt (Stmt.branch Tok.illegal) []).2 ≠ none := by
    simp [StarlarkStmt, WriteStmt, getOutputOpts, stmt, tokStr]
  exact ⟨h, C1_string_entry_points_empty_on_error.1 _ _ h⟩

/-- C2 counterexample: a bare tuple expression with zero elements renders as
the empty string, not as `"()"` (the `tupleExpr` renderer emits only the
element sequence and never writes parentheses; the repository's own test
wraps the empty tuple in a `ParenExpr` to obtain `"()"`). -/
theorem C2_counterexample :
    expr (.tuple []) defaultOpts = .ok ""
    ∧ (Except.ok "" : Except String String) ≠ .ok "()" := by
  constructor
  · simp [expr, exprSequence_nil]
  · simp

/-- C2 amended: for every options record (hence every layout policy, indent
unit and depth), an empty call renders as the callee followed by `"()"`, an
empty list as a bracket pair, an empty dict as a brace pair, while an empty tuple renders
as the empty string (a parenthesized empty tuple renders as `"()"`, the
parentheses coming from the enclosing paren expression). -/
theorem C2_empty_sequences (opts : outputOpts) (fn : Expr) (s : String)
    (h : expr fn opts = .ok s) :
    expr (.call fn []) opts = .ok (s ++ "()")
    ∧ expr (.listE []) opts = .ok "[]"
    ∧ expr (.dict []) opts = .ok "\x7b\x7d"
    ∧ expr (.tuple []) opts = .ok ""
    ∧ expr (.paren (.tuple [])) opts = .ok "()" := by
  refine ⟨?_, ?_, ?_, ?_, ?_⟩ <;>
    simp [expr, h, exprSequence_nil, dictValidate]
  rw [String.append_assoc]
  rfl

/-- Witness for C2's amended theorem, at the identity callee `foo` and the
default options. -/
theorem C2_witness :
    expr (.ident "foo") defaultOpts = .ok "foo"
    ∧ expr (.call (.ident "foo") []) defaultOpts = .ok ("foo" ++ "()")
    ∧ expr (.listE []) defaultOpts = .ok "[]"
    ∧ expr (.dict []) defaultOpts = .ok "\x7b\x7d"
    ∧ expr (.tuple []) defaultOpts = .ok ""
    ∧ expr (.paren (.tuple [])) defaultOpts = .ok "()" := by
  have h : expr (.ident "foo") defaultOpts = .ok "foo" := by simp [expr]
  have hc := C2_empty_sequences defaultOpts (.ident "foo") "foo" h
  exact ⟨h, hc.1, hc.2.1, hc.2.2.1, hc.2.2.2.1, hc.2.2.2.2⟩

/-- C4 (code bug): forcing the sink to fail on the first write of the
`while` keyword while rendering a while statement yields the breadcrumb
`"rendering if statement WHILE token: ..."`: the item-list `whileStmt` in
`stmt.go` passes the error prefix `"rendering if statement"` to the render
driver, so the breadcrumb names the if statement instead of the while
statement (the repository's own test expects
`"rendering while statement WHILE token:"` for this scenario). -/
theorem C4_while_breadcrumb_names_if_statement :
    whileStmtV2 failOnWhile ⟨"", 0⟩ (.ident "foo_cond") [.branch .passT] defaultOpts
      = .error "rendering if statement WHILE token: EXPECTED FAILURE" := by
  rfl

/-- C5: a binary expression renders as `X`, the operator token, then `Y`,
with one space on each side of the operator, except that for the
keyword-argument/default-value equality operator `=` the spaces are omitted
unless `spaceEqBinary` is set; with the option set the spaces are always
present. -/
theorem C5_binary_operator_spacing (opts : outputOpts) (op : Tok) (x y : Expr)
    (sx sy : String) (hx : expr x opts = .ok sx) (hy : expr y opts = .ok sy) :
    expr (.binary op x y) opts
      = .ok (sx ++ (if op ≠ Tok.eq ∨ opts.spaceEqBinary = true then " " else "")
          ++ tokStr op
          ++ (if op ≠ Tok.eq ∨ opts.spaceEqBinary = true then " " else "")
          ++ sy) := by
  simp [expr, hx, hy]

/-- Witness for C5 at `foo < bar`, `foo = bar` (spaces omitted) and
`foo = bar` with `spaceEqBinary` (spaces kept). -/
theorem C5_witness :
    expr (.binary .lt (.ident "foo") (.ident "bar")) defaultOpts = .ok "foo < bar"
    ∧ expr (.binary .eq (.ident "foo") (.ident "bar")) defaultOpts = .ok "foo=bar"
    ∧ expr (.binary .eq (.ident "foo") (.ident "bar"))
        { defaultOpts with spaceEqBinary := true } = .ok "foo = bar" := by
  have h1 : expr (.ident "foo") defaultOpts = .ok "foo" := by simp [expr]
  have h2 : expr (.ident "bar") defaultOpts = .ok "bar" := by simp [expr]
  have h3 : expr (.ident "foo") { defaultOpts with spaceEqBinary := true } = .ok "foo" := by
    simp [expr]
  have h4 : expr (.ident "bar") { defaultOpts with spaceEqBinary := true } = .ok "bar" := by
    simp [expr]
  refine ⟨?_, ?_, ?_⟩
  · have := C5_binary_operator_spacing defaultOpts .lt (.ident "foo") (.ident "bar") _ _ h1 h2
    simpa [tokStr, defaultOpts] using this
  · have := C5_binary_operator_spacing defaultOpts .eq (.ident "foo") (.ident "bar") _ _ h1 h2
    simpa [tokStr, defaultOpts] using this
  · have := C5_binary_operator_spacing { defaultOpts with spaceEqBinary := true } .eq
      (.ident "foo") (.ident "bar") _ _ h3 h4
    simpa [tokStr, defaultOpts] using this

/-- C6: an assign statement whose operator is not one of `=`, `+=`, `-=`,
`*=`, `%=` is rejected with the unsupported-token error before any emission
(even a sink that fails every write still observes the validation error, so
nothing is written); each of the five legal operators passes validation and
renders `indent LHS space op space RHS newline`. -/
theorem C6_assign_operator_validation (opts : outputOpts) (op : Tok) (lhs rhs : Expr) :
    (¬(op = Tok.eq ∨ op = Tok.plusEq ∨ op = Tok.minusEq ∨ op = Tok.starEq ∨ op = Tok.percentEq) →
      stmt (.assign op lhs rhs) opts
        = .error ("rendering assign statement: unsupported Op token " ++ tokStr op
            ++ ", expected one of: =, +=, -=, *=, %=")
      ∧ ∀ (cfg : SinkCfg) (st : SinkSt),
          assignStmtW cfg st op lhs rhs opts
            = .error ("rendering assign statement: unsupported Op token " ++ tokStr op
                ++ ", expected one of: =, +=, -=, *=, %="))
    ∧ ((op = Tok.eq ∨ op = Tok.plusEq ∨ op = Tok.minusEq ∨ op = Tok.starEq ∨ op = Tok.percentEq) →
      ∀ (sl sr : String), expr lhs opts = .ok sl → expr rhs opts = .ok sr →
        stmt (.assign op lhs rhs) opts
          = .ok (writeRepeat opts.indent opts.depth ++ sl ++ " " ++ tokStr op
              ++ " " ++ sr ++ "\n")) := by
  constructor
  · intro h
    constructor
    · simp [stmt, h]
    · intro cfg st
      simp [assignStmtW, h]
  · intro h sl sr hl hr
    simp [stmt, h, hl, hr]

/-- Witness for C6: the `*` token is rejected (also with a sink that fails
every write, showing nothing is emitted), and `+=` renders. -/
theorem C6_witness :
    (stmt (.assign .star (.ident "foo") (.ident "x")) defaultOpts
      = .error ("rendering assign statement: unsupported Op token " ++ tokStr .star
          ++ ", expected one of: =, +=, -=, *=, %=")
    ∧ ∀ (cfg : SinkCfg) (st : SinkSt),
        assignStmtW cfg st .star (.ident "foo") (.ident "x") defaultOpts
          = .error ("rendering assign statement: unsupported Op token " ++ tokStr .star
              ++ ", expected one of: =, +=, -=, *=, %="))
    ∧ stmt (.assign .plusEq (.ident "foo") (.ident "x")) defaultOpts
        = .ok (writeRepeat defaultOpts.indent defaultOpts.depth ++ "foo" ++ " "
            ++ tokStr .plusEq ++ " " ++ "x" ++ "\n") := by
  have hfoo : expr (.ident "foo") defaultOpts = .ok "foo" := by simp [expr]
  have hx : expr (.ident "x") defaultOpts = .ok "x" := by simp [expr]
  refine ⟨(C6_assign_operator_validation defaultOpts .star _ _).1 (by simp), ?_⟩
  exact (C6_assign_operator_validation defaultOpts .plusEq (.ident "foo") (.ident "x")).2
    (by simp) "foo" "x" hfoo hx

/-- C3: for every element sequence and layout policy, the rendered sequence
breaks lines exactly when (line-break axis `multiLine` and at least one
element) or (axis `multiLineMultiple` and more than one element), and the
element region ends with a trailing comma exactly when (comma axis
`alwaysLastComma` and at least one element) or (axis `lastCommaTwoAndMore`
and more than one element); when lines are broken the elements are rendered
at depth + 1 with a comma-newline-indent separator and the closing bracket
follows a newline plus original-depth indent, otherwise elements are joined
by `", "` and the trailing comma (if any) is the last character before the
closing bracket. -/
theorem C3_sequence_layout (opts : outputOpts) (ro : Nat) (args : List Expr) (s : String)
    (h : exprSequence args ro opts = .ok s) :
    ∃ body : String,
      exprSeqElems args 0 ""
        (if (multiLineType ro = 2 ∧ 0 < args.length) ∨ (multiLineType ro = 1 ∧ 1 < args.length)
         then "," ++ "\n" ++ writeRepeat opts.indent (opts.depth + 1) else "," ++ " ")
        (if (multiLineType ro = 2 ∧ 0 < args.length) ∨ (multiLineType ro = 1 ∧ 1 < args.length)
         then opts.addDepth 1 else opts)
        = .ok body
      ∧ s = (if (multiLineType ro = 2 ∧ 0 < args.length) ∨ (multiLineType ro = 1 ∧ 1 < args.length)
             then "\n" ++ writeRepeat opts.indent (opts.depth + 1) else "")
          ++ body
          ++ (if (commaType ro = 1 ∧ 0 < args.length) ∨ (commaType ro = 2 ∧ 1 < args.length)
              then "," else "")
          ++ (if (multiLineType ro = 2 ∧ 0 < args.length) ∨ (multiLineType ro = 1 ∧ 1 < args.length)
              then "\n" ++ writeRepeat opts.indent opts.depth else "") := by
  unfold exprSequence at h
  by_cases hn0 : 0 < args.length <;> by_cases hn1 : 1 < args.length <;>
    rcases hm : multiLineType ro with _ | _ | _ | k <;>
      rcases hc : commaType ro with _ | _ | _ | j <;>
        simp [hm, hc, hn0, hn1] at h <;>
        · split at h
          · exact absurd h (by simp)
          · next body heq =>
              refine ⟨body, ?_, ?_⟩
              · simpa [hm, hc, hn0, hn1] using heq
              · have hs := (Except.ok.injEq _ _).mp h
                simp [hm, hc, hn0, hn1, ← hs]


/-- Witness for C3: policy value 5 (`multiLineMultiple` break axis,
`lastCommaTwoAndMore` comma axis) with the two-element sequence `a`, `b` at
default options (spec example 3: the element region of `f(a, b)` renders as
`"\n    a,\n    b,\n"`). -/
theorem C3_witness :
    ∃ body : String,
      exprSeqElems [Expr.ident "a", Expr.ident "b"] 0 ""
        (if (multiLineType 5 = 2 ∧ 0 < ([Expr.ident "a", Expr.ident "b"] : List Expr).length)
            ∨ (multiLineType 5 = 1 ∧ 1 < ([Expr.ident "a", Expr.ident "b"] : List Expr).length)
         then "," ++ "\n" ++ writeRepeat defaultOpts.indent (defaultOpts.depth + 1)
         else "," ++ " ")
        (if (multiLineType 5 = 2 ∧ 0 < ([Expr.ident "a", Expr.ident "b"] : List Expr).length)
            ∨ (multiLineType 5 = 1 ∧ 1 < ([Expr.ident "a", Expr.ident "b"] : List Expr).length)
         then defaultOpts.addDepth 1 else defaultOpts)
        = .ok body
      ∧ "\n    a,\n    b,\n"
          = (if (multiLineType 5 = 2 ∧ 0 < ([Expr.ident "a", Expr.ident "b"] : List Expr).length)
                ∨ (multiLineType 5 = 1 ∧ 1 < ([Expr.ident "a", Expr.ident "b"] : List Expr).length)
             then "\n" ++ writeRepeat defaultOpts.indent (defaultOpts.depth + 1) else "")
            ++ body
            ++ (if (commaType 5 = 1 ∧ 0 < ([Expr.ident "a", Expr.ident "b"] : List Expr).length)
                  ∨ (commaType 5 = 2 ∧ 1 < ([Expr.ident "a", Expr.ident "b"] : List Expr).length)
                then "," else "")
            ++ (if (multiLineType 5 = 2 ∧ 0 < ([Expr.ident "a", Expr.ident "b"] : List Expr).length)
                  ∨ (multiLineType 5 = 1 ∧ 1 < ([Expr.ident "a", Expr.ident "b"] : List Expr).length)
                then "\n" ++ writeRepeat defaultOpts.indent defaultOpts.depth else "") :=
  C3_sequence_layout defaultOpts 5 [Expr.ident "a", Expr.ident "b"] "\n    a,\n    b,\n"
    (by simp [exprSequence, exprSeqElems, expr, multiLineType, commaType, writeRepeat,
      defaultOpts])

/-- Helper: a successful load statement renders as indent, `load(`, the
module, the comma-separated entries, `)` and a newline. -/
theorem load_ok_shape (opts : outputOpts) (moduleE : Expr) (froms : List String)
    (tos : List (Option String)) (sm : String)
    (hlen : froms.length = tos.length) (hm : expr moduleE opts = .ok sm) :
    stmt (.load moduleE froms tos) opts
      = .ok (writeRepeat opts.indent opts.depth ++ "load" ++ "(" ++ sm
          ++ loadEntries froms tos opts.spaceEqBinary ++ ")" ++ "\n") := by
  simp [stmt, hlen, hm]

/-- C7: a load statement with differing `From`/`To` lengths fails with the
length-mismatch error naming both lengths, and writes nothing (even a sink
failing every write observes only the validation error); with equal lengths
it renders `load(<module><entries>)`, where an entry whose local binding
name differs from its source symbol name is `<alias>=<quoted source>` (with
spaces around `=` exactly when `spaceEqBinary`), and an entry with equal
names is the quoted source alone. -/
theorem C7_load_rendering (opts : outputOpts) (moduleE : Expr) (froms : List String)
    (tos : List (Option String)) :
    (froms.length ≠ tos.length →
      stmt (.load moduleE froms tos) opts
        = .error ("rendering load statement, lengths mismatch, From: " ++ toString froms.length
            ++ ", To: " ++ toString tos.length)
      ∧ ∀ (cfg : SinkCfg) (st : SinkSt),
          loadStmtW cfg st moduleE froms tos opts
            = .error ("rendering load statement, lengths mismatch, From: "
                ++ toString froms.length ++ ", To: " ++ toString tos.length))
    ∧ (froms.length = tos.length →
      ∀ sm : String, expr moduleE opts = .ok sm →
        stmt (.load moduleE froms tos) opts
          = .ok (writeRepeat opts.indent opts.depth ++ "load" ++ "(" ++ sm
              ++ loadEntries froms tos opts.spaceEqBinary ++ ")" ++ "\n"))
    ∧ (∀ (sp : Bool) (f a : String),
        (a ≠ f → loadEntry f (some a) sp
          = a ++ (if sp then " " ++ "=" ++ " " else "=") ++ "\"" ++ f ++ "\"")
        ∧ loadEntry f (some f) sp = "\"" ++ f ++ "\"") := by
  refine ⟨fun h => ⟨by simp [stmt, h], fun cfg st => by simp [loadStmtW, h]⟩,
    fun h sm hm => load_ok_shape opts moduleE froms tos sm h hm,
    fun sp f a => ⟨fun hne => by simp [loadEntry, hne], by simp [loadEntry]⟩⟩

/-- Witness for C7: spec example 5 (mismatched lengths, From 3 and To 2),
the mixed-alias load of the repository's tests, and a differing-name entry. -/
theorem C7_witness :
    stmt (.load (.ident "m") ["foo", "bar", "foobar"] [some "b", some "a"]) defaultOpts
      = .error ("rendering load statement, lengths mismatch, From: "
          ++ toString (["foo", "bar", "foobar"] : List String).length
          ++ ", To: " ++ toString ([some "b", some "a"] : List (Option String)).length)
    ∧ stmt (.load (.ident "m") ["foo", "bar"] [some "foo", some "a"]) defaultOpts
      = .ok (writeRepeat defaultOpts.indent defaultOpts.depth ++ "load" ++ "(" ++ "m"
          ++ loadEntries ["foo", "bar"] [some "foo", some "a"] defaultOpts.spaceEqBinary
          ++ ")" ++ "\n")
    ∧ loadEntry "bar" (some "a") false
        = "a" ++ (if false then " " ++ "=" ++ " " else "=") ++ "\"" ++ "bar" ++ "\"" := by
  refine ⟨((C7_load_rendering defaultOpts (.ident "m") ["foo", "bar", "foobar"]
      [some "b", some "a"]).1 (by simp)).1,
    (C7_load_rendering defaultOpts (.ident "m") ["foo", "bar"]
      [some "foo", some "a"]).2.1 (by simp) "m" (by simp [expr]),
    ((C7_load_rendering defaultOpts (.ident "m") ["foo", "bar"]
      [some "foo", some "a"]).2.2 false "bar" "a").1 (by simp)⟩

/-- Helper: replacing a nil `To` entry by an alias equal to its `From` name
leaves the rendered entry list unchanged (both render unaliased). -/
theorem loadEntries_set_none (sp : Bool) :
    ∀ (froms : List String) (tos : List (Option String)) (i : Nat)
      (hf : i < froms.length) (ht : i < tos.length),
      tos.get ⟨i, ht⟩ = none →
      loadEntries froms (tos.set i (some (froms.get ⟨i, hf⟩))) sp
        = loadEntries froms tos sp := by
  intro froms
  induction froms with
  | nil => intro tos i hf; simp at hf
  | cons f fr ih =>
    intro tos i hf ht hnil
    cases tos with
    | nil => simp at ht
    | cons t tr =>
      cases i with
      | zero =>
        simp only [List.get] at hnil
        simp [hnil, loadEntries, loadEntry]
      | succ j =>
        have hf2 : j < fr.length := by simpa using hf
        have ht2 : j < tr.length := by simpa using ht
        have hnil2 : tr.get ⟨j, ht2⟩ = none := hnil
        have hgg : (f :: fr).get ⟨j + 1, hf⟩ = fr.get ⟨j, hf2⟩ := rfl
        simp only [List.set, loadEntries, hgg]
        rw [ih tr j hf2 ht2 hnil2]

/-- C10: in a load statement with equal `From`/`To` lengths, an entry whose
`To` identifier is nil renders unaliased exactly like an entry whose local
name equals the source name (replacing the nil entry by such an alias leaves
the output unchanged), the render succeeds (no error, no panic), and the
entry text is the quoted source name. -/
theorem C10_load_nil_to_entry (opts : outputOpts) (moduleE : Expr) (froms : List String)
    (tos : List (Option String)) (sm : String) (i : Nat)
    (hlen : froms.length = tos.length) (hm : expr moduleE opts = .ok sm)
    (hf : i < froms.length) (ht : i < tos.length)
    (hnil : tos.get ⟨i, ht⟩ = none) :
    (∃ s, stmt (.load moduleE froms tos) opts = .ok s)
    ∧ stmt (.load moduleE froms tos) opts
        = stmt (.load moduleE froms (tos.set i (some (froms.get ⟨i, hf⟩)))) opts
    ∧ loadEntry (froms.get ⟨i, hf⟩) (tos.get ⟨i, ht⟩) opts.spaceEqBinary
        = "\"" ++ froms.get ⟨i, hf⟩ ++ "\"" := by
  have h1 := load_ok_shape opts moduleE froms tos sm hlen hm
  have hlen2 : froms.length = (tos.set i (some (froms.get ⟨i, hf⟩))).length := by
    simp [hlen]
  have h2 := load_ok_shape opts moduleE froms (tos.set i (some (froms.get ⟨i, hf⟩))) sm
    hlen2 hm
  refine ⟨⟨_, h1⟩, ?_, ?_⟩
  · rw [h1, h2, loadEntries_set_none opts.spaceEqBinary froms tos i hf ht hnil]
  · rw [hnil]
    simp [loadEntry]

/-- Witness for C10: the repository's "load, none named" test shape, with a
nil `To` entry at index 0. -/
theorem C10_witness :
    (∃ s, stmt (.load (.ident "m") ["foo", "bar"] [none, some "a"]) defaultOpts = .ok s)
    ∧ stmt (.load (.ident "m") ["foo", "bar"] [none, some "a"]) defaultOpts
        = stmt (.load (.ident "m") ["foo", "bar"]
            (([none, some "a"] : List (Option String)).set 0
              (some ((["foo", "bar"] : List String).get ⟨0, by simp⟩)))) defaultOpts
    ∧ loadEntry ((["foo", "bar"] : List String).get ⟨0, by simp⟩)
        (([none, some "a"] : List (Option String)).get ⟨0, by simp⟩)
        defaultOpts.spaceEqBinary
        = "\"" ++ (["foo", "bar"] : List String).get ⟨0, by simp⟩ ++ "\"" :=
  C10_load_nil_to_entry defaultOpts (.ident "m") ["foo", "bar"] [none, some "a"] "m" 0
    (by simp) (by simp [expr]) (by simp) (by simp) (by simp)

/-- Helper: a string whose character data is prefixed by the data of `a` is
`a` followed by a remainder string. -/
theorem str_prefix_intro (a s : String) (h : a.data <+: s.data) : ∃ r, s = a ++ r := by
  rcases h with ⟨t, ht⟩
  refine ⟨String.mk t, ?_⟩
  apply String.ext
  rw [String.data_append, ← ht]

/-- Helper: every statement renderer that succeeds emits the current
indentation (`indent` repeated `depth` times) before any other output. -/
theorem stmt_ok_indent (st : Stmt) (opts : outputOpts) (s : String)
    (h : stmt st opts = .ok s) :
    ∃ r, s = writeRepeat opts.indent opts.depth ++ r := by
  apply str_prefix_intro
  cases st <;>
    (simp only [stmt] at h
     repeat' split at h) <;>
    (try simp only [Except.ok.injEq] at h) <;>
    first
      | (rw [← h]
         simp only [docstring, String.data_append, List.append_assoc]
         exact List.prefix_append _ _)
      | simp at h

/-- Helper: a successful statement-sequence render splits into one part per
statement, each part beginning with the loop's indentation. -/
theorem stmtSeqLoop_parts (sts : List Stmt) :
    ∀ (i : Nat) (o : outputOpts) (s : String),
    stmtSeqLoop sts i o = .ok s →
    ∃ parts : List String, s = parts.foldr (fun a b => a ++ b) ""
      ∧ parts.length = sts.length
      ∧ ∀ p ∈ parts, ∃ r, p = writeRepeat o.indent o.depth ++ r := by
  induction sts with
  | nil =>
    intro i o s h
    simp only [stmtSeqLoop] at h
    have hs := (Except.ok.injEq _ _).mp h
    exact ⟨[], by simp [← hs], by simp, by simp⟩
  | cons st rest ih =>
    intro i o s h
    simp only [stmtSeqLoop] at h
    split at h
    · simp at h
    · next x1 s1 heq1 =>
      split at h
      · simp at h
      · next x2 r2 heq2 =>
        have hs := (Except.ok.injEq _ _).mp h
        obtain ⟨parts, hp1, hp2, hp3⟩ := ih (i + 1) o r2 heq2
        refine ⟨s1 :: parts, by simp [List.foldr, ← hs, hp1], by simp [hp2], ?_⟩
        intro p hp
        rcases List.mem_cons.mp hp with rfl | hp
        · exact stmt_ok_indent st o _ heq1
        · exact hp3 p hp

/-- C9: every statement render at depth `d` begins with the indent unit
repeated `d` times; a statement-sequence render (the body renderer used by
def, for, if and while) renders each body statement at depth `d + 1`, so
each part begins with the unit repeated `d + 1` times; and the def, for, if
and while renderers render their bodies through that sequence renderer. -/
theorem C9_depth_indent_linearity :
    (∀ (st : Stmt) (opts : outputOpts) (s : String), stmt st opts = .ok s →
      ∃ r, s = writeRepeat opts.indent opts.depth ++ r)
    ∧ (∀ (sts : List Stmt) (opts : outputOpts) (s : String), stmtSequence sts opts = .ok s →
      ∃ parts : List String, s = parts.foldr (fun a b => a ++ b) ""
        ∧ parts.length = sts.length
        ∧ ∀ p ∈ parts, ∃ r, p = writeRepeat opts.indent (opts.depth + 1) ++ r)
    ∧ (∀ (opts : outputOpts) (c : Expr) (b : List Stmt) (sc sb : String),
        expr c opts = .ok sc → stmtSequence b opts = .ok sb →
        stmt (.whileS c b) opts
          = .ok (writeRepeat opts.indent opts.depth ++ "while" ++ " " ++ sc ++ ":" ++ "\n" ++ sb)
        ∧ stmt (.ifS c b []) opts
          = .ok (writeRepeat opts.indent opts.depth ++ "if" ++ " " ++ sc ++ ":" ++ "\n" ++ sb))
    ∧ (∀ (opts : outputOpts) (nm v x : Expr) (b : List Stmt) (sn sv sx sq sb : String),
        expr nm opts = .ok sn → expr v opts = .ok sv → expr x opts = .ok sx →
        exprSequence [] 0 opts = .ok sq → stmtSequence b opts = .ok sb →
        stmt (.forS v x b) opts
          = .ok (writeRepeat opts.indent opts.depth ++ "for" ++ " " ++ sv ++ " " ++ "in"
              ++ " " ++ sx ++ ":" ++ "\n" ++ sb)
        ∧ stmt (.defS nm [] b) opts
          = .ok (writeRepeat opts.indent opts.depth ++ "def" ++ " " ++ sn
              ++ "(" ++ sq ++ ")" ++ ":" ++ "\n" ++ sb)) := by
  refine ⟨stmt_ok_indent, ?_, ?_, ?_⟩
  · intro sts opts s h
    have := stmtSeqLoop_parts sts 0 (opts.addDepth 1) s (by simpa [stmtSequence] using h)
    simpa [outputOpts.addDepth] using this
  · intro opts c b sc sb hc hb
    exact ⟨by simp [stmt, hc, hb], by simp [stmt, hc, hb]⟩
  · intro opts nm v x b sn sv sx sq sb hn hv hx hq hb
    exact ⟨by simp [stmt, hv, hx, hb], by simp [stmt, hn, hq, hb]⟩

/-- Witness for C9: a while statement with a one-statement body at depth 1
with a two-character indent unit: the header starts with one copy of the
unit and the body line with two. -/
theorem C9_witness :
    (∃ r, "~~while a:\n~~~~pass\n"
      = writeRepeat ({ defaultOpts with indent := "~~", depth := 1 } : outputOpts).indent
          ({ defaultOpts with indent := "~~", depth := 1 } : outputOpts).depth ++ r)
    ∧ ∃ parts : List String, "~~~~pass\n" = parts.foldr (fun a b => a ++ b) ""
        ∧ parts.length = ([Stmt.branch .passT] : List Stmt).length
        ∧ ∀ p ∈ parts, ∃ r,
            p = writeRepeat ({ defaultOpts with indent := "~~", depth := 1 } : outputOpts).indent
              (({ defaultOpts with indent := "~~", depth := 1 } : outputOpts).depth + 1) ++ r := by
  constructor
  · exact C9_depth_indent_linearity.1 (.whileS (.ident "a") [.branch .passT])
      { defaultOpts with indent := "~~", depth := 1 } _
      (by simp [stmt, expr, stmtSequence, stmtSeqLoop, outputOpts.addDepth, writeRepeat, tokStr])
  · exact C9_depth_indent_linearity.2.1 [.branch .passT]
      { defaultOpts with indent := "~~", depth := 1 } _
      (by simp [stmtSequence, stmtSeqLoop, stmt, outputOpts.addDepth, writeRepeat, tokStr])

/-- Helper: the escaping scan leaves quote-free text unchanged. -/
theorem escTriple_id (cs : List Char) (h : ∀ c ∈ cs, c ≠ '"') : escTriple cs = cs := by
  induction cs with
  | nil => simp [escTriple]
  | cons c rest ih =>
    have hc : c ≠ '"' := h c (by simp)
    simp [escTriple, hc, ih (fun x hx => h x (List.mem_cons_of_mem c hx))]

/-- Helper: a triple-quote sequence after a quote-free prefix is escaped to
`\"\"\"`, with the scan continuing after it. -/
theorem escTriple_escapes (l r : List Char) (h : ∀ c ∈ l, c ≠ '"') :
    escTriple (l ++ '"' :: '"' :: '"' :: r)
      = l ++ '\\' :: '"' :: '\\' :: '"' :: '\\' :: '"' :: escTriple r := by
  induction l with
  | nil => simp [escTriple]
  | cons c l ih =>
    have hc : c ≠ '"' := h c (by simp)
    simp only [List.cons_append]
    simp [escTriple, hc, ih (fun x hx => h x (List.mem_cons_of_mem c hx))]

/-- Helper: the line scan consumes a newline-free prefix into the current
line accumulator. -/
theorem scanLinesAux_append (L0 : List Char) :
    ∀ (acc rest : List Char), (∀ c ∈ L0, c ≠ '\n') →
    scanLinesAux acc (L0 ++ rest) = scanLinesAux (acc ++ L0) rest := by
  induction L0 with
  | nil => intro acc rest h; simp
  | cons c L0 ih =>
    intro acc rest h
    have hc : c ≠ '\n' := h c (by simp)
    simp only [List.cons_append]
    rw [scanLinesAux]
    simp only [hc, if_false]
    rw [ih (acc ++ [c]) rest (fun x hx => h x (List.mem_cons_of_mem c hx))]
    simp

/-- Helper: the line scan of newline-free text yields a single line. -/
theorem scanLinesAux_noNl (cs : List Char) :
    ∀ acc : List Char, (∀ c ∈ cs, c ≠ '\n') → scanLinesAux acc cs = [acc ++ cs] := by
  induction cs with
  | nil => intro acc h; simp [scanLinesAux]
  | cons c cs ih =>
    intro acc h
    have hc : c ≠ '\n' := h c (by simp)
    rw [scanLinesAux]
    simp only [hc, if_false]
    rw [ih (acc ++ [c]) (fun x hx => h x (List.mem_cons_of_mem c hx))]
    simp

/-- Helper: the last element of an appended non-empty list. -/
theorem getLast?_skip (l2 : List Char) (h2 : l2 ≠ []) :
    ∀ l1 : List Char, (l1 ++ l2).getLast? = l2.getLast? := by
  intro l1
  induction l1 with
  | nil => simp
  | cons c l1 ih =>
    cases hl : l1 ++ l2 with
    | nil => rcases List.append_eq_nil.mp hl with ⟨-, h⟩; exact absurd h h2
    | cons d ds =>
      simp only [List.cons_append, hl, List.getLast?_cons_cons]
      rw [← hl]
      exact ih

/-- Helper: a list avoiding a character does not end with it. -/
theorem getLast?_ne_of_all (a : Char) :
    ∀ cs : List Char, (∀ c ∈ cs, c ≠ a) → cs.getLast? ≠ some a := by
  intro cs
  induction cs with
  | nil => simp
  | cons c rest ih =>
    intro h
    cases rest with
    | nil => simpa using h c (by simp)
    | cons d ds =>
      rw [List.getLast?_cons_cons]
      exact ih (fun x hx => h x (List.mem_cons_of_mem c hx))

/-- Helper: the membership of `hasSpacePrefix` in prefix terms: the buffer
starts with `p` spaces exactly when the `p`-space list is a prefix of it. -/
theorem hasSpacePrefix_iff (l : List Char) (p : Nat) :
    hasSpacePrefix l p = true ↔ List.replicate p ' ' <+: l := by
  constructor
  · intro h
    simp only [ hasSpacePrefix, Bool.and_eq_true, decide_eq_true_eq, List.all_eq_true,
      decide_eq_true_eq] at h
    obtain ⟨hlen, hall⟩ := h
    have htake : l.take p = List.replicate p ' ' := by
      apply List.eq_replicate_iff.mpr
      refine ⟨?_, hall⟩
      simp only [List.length_take]
      omega
    rw [← htake]
    exact List.take_prefix p l
  · rintro ⟨t, rfl⟩
    have hlen : (List.replicate p ' ').length = p := List.length_replicate p ' '
    have htake : (List.replicate p ' ' ++ t).take p = List.replicate p ' ' := by
      have h := List.take_left (List.replicate p ' ') t
      rwa [hlen] at h
    simp only [ hasSpacePrefix, Bool.and_eq_true, decide_eq_true_eq, List.all_eq_true,
      decide_eq_true_eq]
    refine ⟨by rw [List.length_append, hlen]; omega, ?_⟩
    intro c hc
    rw [htake] at hc
    exact List.eq_of_mem_replicate hc

/-- Helper: the implementation's per-line strip equals the spec rule — the
`p`-space indentation prefix is removed exactly when the width is positive
and the line starts with the prefix; every other line is left intact. -/
theorem stripDoc_eq_spec (p : Nat) (l : List Char) :
    stripDoc p l = if 0 < p ∧ List.replicate p ' ' <+: l then l.drop p else l := by
  by_cases hp : 0 < p
  · by_cases hpre : List.replicate p ' ' <+: l
    · rw [if_pos ⟨hp, hpre⟩]
      unfold stripDoc
      rw [if_pos ⟨hp, (hasSpacePrefix_iff l p).mpr hpre⟩]
    · rw [if_neg (fun hc => hpre hc.2)]
      unfold stripDoc
      rw [if_neg (fun hc => hpre ((hasSpacePrefix_iff l p).mp hc.2))]
  · rw [if_neg (fun hc => hp hc.1)]
    unfold stripDoc
    rw [if_neg (fun hc => hp hc.1)]

/-- Helper: the implementation's tail-line renderer coincides with the
spec-side one on every line list. -/
theorem docTailLines_eq_spec (p : Nat) (opts : outputOpts) :
    ∀ Ls : List (List Char), docTailLines p opts Ls = docTailSpec p opts Ls := by
  intro Ls
  induction Ls with
  | nil => rfl
  | cons l rest ih =>
    simp only [docTailLines, docTailSpec, stripDoc_eq_spec, ih]

/-- Helper: a character of a joined list comes from a segment or from the
separator. -/
theorem joinSep_mem (sep : List Char) (L : List (List Char)) :
    ∀ c : Char, c ∈ joinSep sep L → (∃ l ∈ L, c ∈ l) ∨ c ∈ sep := by
  induction L with
  | nil => intro c hc; simp [joinSep] at hc
  | cons l L ih =>
    intro c hc
    cases L with
    | nil =>
      simp only [joinSep] at hc
      exact Or.inl ⟨l, by simp, hc⟩
    | cons l2 ls =>
      simp only [joinSep, List.append_assoc, List.mem_append] at hc
      rcases hc with hc | hc | hc
      · exact Or.inl ⟨l, by simp, hc⟩
      · exact Or.inr hc
      · rcases ih c hc with ⟨l3, hl3, hcl⟩ | hs
        · exact Or.inl ⟨l3, List.mem_cons_of_mem l hl3, hcl⟩
        · exact Or.inr hs

/-- Helper: every `"""` occurrence is escaped at once: quote-free segments
joined by `"""` are escaped to the same segments joined by `\"\"\"`, for an
arbitrary number of occurrences at arbitrary positions. -/
theorem escTriple_join :
    ∀ ss : List (List Char), (∀ s ∈ ss, ∀ c ∈ s, c ≠ '"') →
    escTriple (joinSep ['"', '"', '"'] ss)
      = joinSep ['\\', '"', '\\', '"', '\\', '"'] ss := by
  intro ss
  induction ss with
  | nil => intro _; simp [joinSep, escTriple]
  | cons l ss ih =>
    intro h
    cases ss with
    | nil =>
      simp only [joinSep]
      exact escTriple_id l (fun c hc => h l (by simp) c hc)
    | cons l2 ls =>
      have hshape : joinSep ['"', '"', '"'] (l :: l2 :: ls)
          = l ++ '"' :: '"' :: '"' :: joinSep ['"', '"', '"'] (l2 :: ls) := by
        simp [joinSep]
      rw [hshape,
        escTriple_escapes l (joinSep ['"', '"', '"'] (l2 :: ls))
          (fun c hc => h l (by simp) c hc),
        ih (fun s hs c hc => h s (List.mem_cons_of_mem l hs) c hc)]
      simp [joinSep]

/-- Helper: a non-nil last line stays non-nil after dropping the head
line. -/
theorem lastCond_tail (l : List Char) (rest : List (List Char))
    (h : (l :: rest).getLast? ≠ some ([] : List Char)) :
    rest.getLast? ≠ some ([] : List Char) := by
  cases rest with
  | nil => simp
  | cons r rs =>
    rw [List.getLast?_cons_cons] at h
    exact h

/-- Helper: a newline-join of lines whose last line is non-empty is itself
non-empty. -/
theorem joinSep_nl_ne_nil (l : List Char) (rest : List (List Char))
    (h : (l :: rest).getLast? ≠ some ([] : List Char)) :
    joinSep ['\n'] (l :: rest) ≠ [] := by
  cases rest with
  | nil =>
    simp only [joinSep]
    intro hc
    exact h (by simp [hc])
  | cons r rs => simp [joinSep]

/-- Helper: the line scan recovers the lines of a newline-join whose last
line is non-empty (so that the join does not end with a newline). -/
theorem scan_join (Ls : List (List Char)) :
    ∀ (acc L0 : List Char), (∀ c ∈ L0, c ≠ '\n') →
    (∀ l ∈ Ls, ∀ c ∈ l, c ≠ '\n') → Ls.getLast? ≠ some ([] : List Char) →
    scanLinesAux acc (joinSep ['\n'] (L0 :: Ls)) = (acc ++ L0) :: Ls := by
  induction Ls with
  | nil =>
    intro acc L0 h0 _ _
    simp only [joinSep]
    exact scanLinesAux_noNl L0 acc h0
  | cons l rest ih =>
    intro acc L0 h0 hl hlast
    have hshape : joinSep ['\n'] (L0 :: l :: rest)
        = L0 ++ '\n' :: joinSep ['\n'] (l :: rest) := by
      simp [joinSep]
    rw [hshape, scanLinesAux_append L0 acc _ h0, scanLinesAux]
    rw [if_pos rfl, if_neg (joinSep_nl_ne_nil l rest hlast)]
    rw [ih [] l (fun c hc => hl l (by simp) c hc)
      (fun l2 hl2 c hc => hl l2 (List.mem_cons_of_mem l hl2) c hc)
      (lastCond_tail l rest hlast)]
    simp

/-- Helper: the line scan of a newline-join followed by a final newline
recovers exactly the joined lines (the final newline opens no line, as
`pos = len(buffer)` ends the Go loop). -/
theorem scan_join_nl (Ls : List (List Char)) :
    ∀ (acc L0 : List Char), (∀ c ∈ L0, c ≠ '\n') →
    (∀ l ∈ Ls, ∀ c ∈ l, c ≠ '\n') →
    scanLinesAux acc (joinSep ['\n'] (L0 :: Ls) ++ ['\n']) = (acc ++ L0) :: Ls := by
  induction Ls with
  | nil =>
    intro acc L0 h0 _
    simp only [joinSep]
    rw [scanLinesAux_append L0 acc ['\n'] h0]
    simp [scanLinesAux]
  | cons l rest ih =>
    intro acc L0 h0 hl
    have hshape : joinSep ['\n'] (L0 :: l :: rest) ++ ['\n']
        = L0 ++ '\n' :: (joinSep ['\n'] (l :: rest) ++ ['\n']) := by
      simp [joinSep]
    rw [hshape, scanLinesAux_append L0 acc _ h0, scanLinesAux]
    rw [if_pos rfl, if_neg (by simp)]
    rw [ih [] l (fun c hc => hl l (by simp) c hc)
      (fun l2 hl2 c hc => hl l2 (List.mem_cons_of_mem l hl2) c hc)]
    simp

/-- Helper: a newline-join of newline-free lines whose last line is
non-empty does not end with a newline. -/
theorem joinSep_nl_getLast (Ls : List (List Char)) :
    ∀ L0 : List Char, (∀ c ∈ L0, c ≠ '\n') →
    (∀ l ∈ Ls, ∀ c ∈ l, c ≠ '\n') → Ls.getLast? ≠ some ([] : List Char) →
    (joinSep ['\n'] (L0 :: Ls)).getLast? ≠ some '\n' := by
  induction Ls with
  | nil =>
    intro L0 h0 _ _
    simp only [joinSep]
    exact getLast?_ne_of_all '\n' L0 h0
  | cons l rest ih =>
    intro L0 h0 hl hlast
    have hshape : joinSep ['\n'] (L0 :: l :: rest)
        = L0 ++ ('\n' :: joinSep ['\n'] (l :: rest)) := by
      simp [joinSep]
    rw [hshape, getLast?_skip _ (by simp) L0]
    have hshape2 : ('\n' :: joinSep ['\n'] (l :: rest))
        = ['\n'] ++ joinSep ['\n'] (l :: rest) := by simp
    rw [hshape2, getLast?_skip _ (joinSep_nl_ne_nil l rest hlast) _]
    exact ih l (fun c hc => hl l (by simp) c hc)
      (fun l2 hl2 c hc => hl l2 (List.mem_cons_of_mem l hl2) c hc)
      (lastCond_tail l rest hlast)

/-- Helper: a parser docstring at column `p + 1` over an arbitrary list of
lines joined by newlines (no trailing newline): the first line is emitted
verbatim — never stripped, even when it starts with spaces — and every
subsequent line is rendered by the spec rule, which strips the `p`-space
prefix exactly from the lines that carry it. -/
theorem docstring_lines (opts : outputOpts) (p : Nat) (L0 : List Char)
    (Ls : List (List Char)) (hp : 0 < p)
    (h0 : ∀ c ∈ L0, c ≠ '\n' ∧ c ≠ '"')
    (hLs : ∀ l ∈ Ls, ∀ c ∈ l, c ≠ '\n' ∧ c ≠ '"')
    (hlast : Ls.getLast? ≠ some ([] : List Char)) :
    docstring Tok.stringT ((p : Int) + 1)
        (String.mk (joinSep ['\n'] (L0 :: Ls))) opts
      = writeRepeat opts.indent opts.depth ++ "\"\"\"" ++ String.mk L0
        ++ docTailSpec p opts Ls ++ "\"\"\"" ++ "\n" := by
  have hnl0 : ∀ c ∈ L0, c ≠ '\n' := fun c hc => (h0 c hc).1
  have hnlLs : ∀ l ∈ Ls, ∀ c ∈ l, c ≠ '\n' := fun l hl c hc => (hLs l hl c hc).1
  have hq : ∀ c ∈ joinSep ['\n'] (L0 :: Ls), c ≠ '"' := by
    intro c hc
    rcases joinSep_mem ['\n'] (L0 :: Ls) c hc with ⟨l, hl, hcl⟩ | hs
    · rcases List.mem_cons.mp hl with rfl | hl
      · exact (h0 c hcl).2
      · exact (hLs l hl c hcl).2
    · have hcn : c = '\n' := by simpa using hs
      rw [hcn]; decide
  have hesc := escTriple_id _ hq
  have hscan : scanLinesAux [] (joinSep ['\n'] (L0 :: Ls)) = L0 :: Ls := by
    have h := scan_join Ls [] L0 hnl0 hnlLs hlast
    simpa using h
  have hlastnl := joinSep_nl_getLast Ls L0 hnl0 hnlLs hlast
  have hcol : (1 : Int) < ((p : Nat) : Int) + 1 := by omega
  have hptail := docTailLines_eq_spec p opts Ls
  simp [docstring, hesc, hscan, hlastnl, hcol, hptail, List.asString,
    String.append_assoc]

/-- Helper: a parser docstring at column `p + 1` over an arbitrary list of
lines joined by newlines and ending with a newline: as `docstring_lines`,
with the trailing empty line indented before the closing quotes. -/
theorem docstring_lines_nl (opts : outputOpts) (p : Nat) (L0 : List Char)
    (Ls : List (List Char)) (hp : 0 < p)
    (h0 : ∀ c ∈ L0, c ≠ '\n' ∧ c ≠ '"')
    (hLs : ∀ l ∈ Ls, ∀ c ∈ l, c ≠ '\n' ∧ c ≠ '"') :
    docstring Tok.stringT ((p : Int) + 1)
        (String.mk (joinSep ['\n'] (L0 :: Ls) ++ ['\n'])) opts
      = writeRepeat opts.indent opts.depth ++ "\"\"\"" ++ String.mk L0
        ++ docTailSpec p opts Ls
        ++ "\n" ++ writeRepeat opts.indent opts.depth ++ "\"\"\"" ++ "\n" := by
  have hnl0 : ∀ c ∈ L0, c ≠ '\n' := fun c hc => (h0 c hc).1
  have hnlLs : ∀ l ∈ Ls, ∀ c ∈ l, c ≠ '\n' := fun l hl c hc => (hLs l hl c hc).1
  have hq : ∀ c ∈ joinSep ['\n'] (L0 :: Ls) ++ ['\n'], c ≠ '"' := by
    intro c hc
    rcases List.mem_append.mp hc with hc | hc
    · rcases joinSep_mem ['\n'] (L0 :: Ls) c hc with ⟨l, hl, hcl⟩ | hs
      · rcases List.mem_cons.mp hl with rfl | hl
        · exact (h0 c hcl).2
        · exact (hLs l hl c hcl).2
      · have hcn : c = '\n' := by simpa using hs
        rw [hcn]; decide
    · have hcn : c = '\n' := by simpa using hc
      rw [hcn]; decide
  have hesc := escTriple_id _ hq
  have hscan : scanLinesAux [] (joinSep ['\n'] (L0 :: Ls) ++ ['\n']) = L0 :: Ls := by
    have h := scan_join_nl Ls [] L0 hnl0 hnlLs
    simpa using h
  have hlastnl : (joinSep ['\n'] (L0 :: Ls) ++ ['\n']).getLast? = some '\n' := by
    rw [getLast?_skip ['\n'] (by simp) _]
    simp
  have hcol : (1 : Int) < ((p : Nat) : Int) + 1 := by omega
  have hptail := docTailLines_eq_spec p opts Ls
  simp [docstring, hesc, hscan, hlastnl, hcol, hptail, List.asString,
    String.append_assoc]

/-- C8: an expression statement whose sole expression is a string literal is
rendered through the docstring path.  In that path: every `"""` sequence of
the text is escaped to `\"\"\"`, proved for an arbitrary number of
occurrences at arbitrary positions (quote-free segments joined by `"""`
escape to the same segments joined by `\"\"\"`); the implementation's
per-line strip equals the spec rule on every line — the `p`-space prefix is
removed exactly when the width is positive and the line starts with it; and
a literal carrying a parser position with column `p + 1 > 1` renders, for an
arbitrary number of lines and with or without a trailing newline, the first
line verbatim (never stripped) and every subsequent line through that rule,
stripping each line that carries the prefix and leaving the others
intact. -/
theorem C8_docstring_rendering :
    (∀ (opts : outputOpts) (raw : String) (tok : Tok) (col : Int) (text : String),
      stmt (.exprS (.lit (some (.str text)) raw tok col)) opts
        = .ok (docstring tok col text opts))
    ∧ (∀ ss : List (List Char), (∀ s ∈ ss, ∀ c ∈ s, c ≠ '"') →
      escTriple (joinSep ['"', '"', '"'] ss)
        = joinSep ['\\', '"', '\\', '"', '\\', '"'] ss)
    ∧ (∀ (p : Nat) (l : List Char),
      stripDoc p l = if 0 < p ∧ List.replicate p ' ' <+: l then l.drop p else l)
    ∧ (∀ (opts : outputOpts) (p : Nat) (L0 : List Char) (Ls : List (List Char)),
      0 < p → (∀ c ∈ L0, c ≠ '\n' ∧ c ≠ '"') →
      (∀ l ∈ Ls, ∀ c ∈ l, c ≠ '\n' ∧ c ≠ '"') →
      Ls.getLast? ≠ some ([] : List Char) →
      docstring Tok.stringT ((p : Int) + 1)
          (String.mk (joinSep ['\n'] (L0 :: Ls))) opts
        = writeRepeat opts.indent opts.depth ++ "\"\"\"" ++ String.mk L0
          ++ docTailSpec p opts Ls ++ "\"\"\"" ++ "\n")
    ∧ (∀ (opts : outputOpts) (p : Nat) (L0 : List Char) (Ls : List (List Char)),
      0 < p → (∀ c ∈ L0, c ≠ '\n' ∧ c ≠ '"') →
      (∀ l ∈ Ls, ∀ c ∈ l, c ≠ '\n' ∧ c ≠ '"') →
      docstring Tok.stringT ((p : Int) + 1)
          (String.mk (joinSep ['\n'] (L0 :: Ls) ++ ['\n'])) opts
        = writeRepeat opts.indent opts.depth ++ "\"\"\"" ++ String.mk L0
          ++ docTailSpec p opts Ls
          ++ "\n" ++ writeRepeat opts.indent opts.depth ++ "\"\"\"" ++ "\n") := by
  refine ⟨?_, escTriple_join, stripDoc_eq_spec, docstring_lines, docstring_lines_nl⟩
  intro opts raw tok col text
  simp [stmt, docstringLit]

/-- Witness for C8: the three-line docstring `line1\n    line2\n  line3`
parsed at column 3 (strip width 2), rendered at depth 1: `line2` keeps its
two extra spaces, `line3` loses exactly its two-space prefix, the first line
is untouched; the quote-segments instance escapes two `"""` occurrences at
once; the trailing-newline instance indents the closing quotes. -/
theorem C8_witness :
    (stmt (.exprS (.lit (some (.str "line1\n    line2")) "" .stringT 5))
        ({ defaultOpts with depth := 1 } : outputOpts)
      = .ok (docstring .stringT 5 "line1\n    line2"
          ({ defaultOpts with depth := 1 } : outputOpts)))
    ∧ escTriple (joinSep ['"', '"', '"'] ["ab".data, "cd".data, "ef".data])
        = joinSep ['\\', '"', '\\', '"', '\\', '"'] ["ab".data, "cd".data, "ef".data]
    ∧ stripDoc 2 "  line3".data
        = (if 0 < 2 ∧ List.replicate 2 ' ' <+: "  line3".data then "  line3".data.drop 2
           else "  line3".data)
    ∧ docstring Tok.stringT (((2 : Nat) : Int) + 1)
        (String.mk (joinSep ['\n'] ["line1".data, "    line2".data, "  line3".data]))
        ({ defaultOpts with depth := 1 } : outputOpts)
      = writeRepeat ({ defaultOpts with depth := 1 } : outputOpts).indent
            ({ defaultOpts with depth := 1 } : outputOpts).depth
          ++ "\"\"\"" ++ String.mk "line1".data
          ++ docTailSpec 2 ({ defaultOpts with depth := 1 } : outputOpts)
              ["    line2".data, "  line3".data]
          ++ "\"\"\"" ++ "\n"
    ∧ docstring Tok.stringT (((2 : Nat) : Int) + 1)
        (String.mk (joinSep ['\n'] ["line1".data, "  line3".data] ++ ['\n']))
        ({ defaultOpts with depth := 1 } : outputOpts)
      = writeRepeat ({ defaultOpts with depth := 1 } : outputOpts).indent
            ({ defaultOpts with depth := 1 } : outputOpts).depth
          ++ "\"\"\"" ++ String.mk "line1".data
          ++ docTailSpec 2 ({ defaultOpts with depth := 1 } : outputOpts) ["  line3".data]
          ++ "\n" ++ writeRepeat ({ defaultOpts with depth := 1 } : outputOpts).indent
            ({ defaultOpts with depth := 1 } : outputOpts).depth
          ++ "\"\"\"" ++ "\n" :=
  ⟨C8_docstring_rendering.1 ({ defaultOpts with depth := 1 } : outputOpts) "" .stringT 5
      "line1\n    line2",
    C8_docstring_rendering.2.1 ["ab".data, "cd".data, "ef".data] (by decide),
    C8_docstring_rendering.2.2.1 2 "  line3".data,
    C8_docstring_rendering.2.2.2.1 ({ defaultOpts with depth := 1 } : outputOpts) 2
      "line1".data ["    line2".data, "  line3".data]
      (by decide) (by decide) (by decide) (by decide),
    C8_docstring_rendering.2.2.2.2 ({ defaultOpts with depth := 1 } : outputOpts) 2
      "line1".data ["  line3".data] (by decide) (by decide) (by decide)⟩

end Starlarkgen
